import Mathlib

/-!
Shallow embedding of the clarity_addMI repository (assign_mi.py and
pullRecords.py), together with proofs about the embedded functions.

The stateful Python code is modelled by explicit state passing: remote
HTTP responses become oracle functions supplied in an environment
record, exceptions become `Except` values, and the side effects of a
run (PUT requests, log entries, the counter file written at the end)
become explicit event lists and return values.
-/

deriving instance DecidableEq for Except

namespace ClarityAddMI

/-! ### Identifier formatting

`assignMI.process_xml` renders the counter as
`"MI20-{}".format(str(self.mi_number).zfill(5))`.  We embed Python's
`str` on a non-negative integer as a big-endian digit-character list and
`str.zfill` as left padding with the zero character.
-/

/-- Big-endian decimal digit characters of a natural number, written with
explicit fuel so that the recursion is structural.  With fuel above the
argument this is exactly the character sequence Python's `str` produces
for a non-negative integer. -/
def natCharsAux : Nat → Nat → List Char
  | 0, _ => []
  | fuel + 1, n =>
    if n < 10 then [Nat.digitChar n]
    else natCharsAux fuel (n / 10) ++ [Nat.digitChar (n % 10)]

/-- The decimal string of a natural number as a character list: `str(n)`. -/
def natChars (n : Nat) : List Char := natCharsAux (n + 1) n

/-- Python's `str.zfill(w)`: left-pad with the zero character up to width
`w`; a string already at least `w` characters long is returned unchanged
(`zfill` never truncates). -/
def zfill (w : Nat) (cs : List Char) : List Char :=
  List.replicate (w - cs.length) '0' ++ cs

/-- The identifier string written onto a sample by `process_xml`:
`"MI20-" + str(mi_number).zfill(5)`. -/
def formatMI (n : Nat) : String := String.mk ("MI20-".data ++ zfill 5 (natChars n))

/-- Numeric value of a decimal digit character. -/
def charVal (c : Char) : Nat := c.toNat - 48

/-- Value of a big-endian digit-character sequence. -/
def foldDigits (cs : List Char) : Nat := cs.foldl (fun a c => 10 * a + charVal c) 0

/-- Parse a non-empty, all-digit character sequence as a decimal number. -/
def parseDecimal (cs : List Char) : Option Nat :=
  if cs ≠ [] ∧ cs.all Char.isDigit then some (foldDigits cs) else none

/-- Parse the numeric suffix of an identifier back to a counter value:
the five leading characters must be the fixed "MI20-" tag and are
dropped, and the remainder is read as a decimal number. -/
def parseMI (s : String) : Option Nat :=
  if s.data.take 5 = "MI20-".data then parseDecimal (s.data.drop 5) else none

/-! #### Facts about the digit rendering -/

theorem charVal_digitChar {d : Nat} (hd : d < 10) :
    charVal (Nat.digitChar d) = d ∧ (Nat.digitChar d).isDigit = true := by
  interval_cases d <;> exact ⟨rfl, rfl⟩

theorem natCharsAux_ne_nil (fuel n : Nat) (h : n < fuel) :
    natCharsAux fuel n ≠ [] := by
  cases fuel with
  | zero => omega
  | succ fuel =>
    rw [natCharsAux]
    by_cases h10 : n < 10
    · simp [h10]
    · simp [h10]

theorem natCharsAux_all_digit (fuel : Nat) : ∀ n, n < fuel →
    (natCharsAux fuel n).all Char.isDigit = true := by
  induction fuel with
  | zero => intro n h; omega
  | succ fuel ih =>
    intro n hn
    rw [natCharsAux]
    by_cases h10 : n < 10
    · simp only [h10, if_true, List.all_cons, List.all_nil, Bool.and_true]
      exact (charVal_digitChar h10).2
    · simp only [h10, if_false, List.all_append, List.all_cons, List.all_nil,
        Bool.and_true, Bool.and_eq_true]
      refine ⟨ih (n / 10) (by omega), (charVal_digitChar (Nat.mod_lt n (by omega))).2⟩

theorem foldDigits_append_singleton (cs : List Char) (c : Char) :
    foldDigits (cs ++ [c]) = 10 * foldDigits cs + charVal c := by
  simp [foldDigits, List.foldl_append]

theorem foldDigits_natCharsAux (fuel : Nat) : ∀ n, n < fuel →
    foldDigits (natCharsAux fuel n) = n := by
  induction fuel with
  | zero => intro n h; omega
  | succ fuel ih =>
    intro n hn
    rw [natCharsAux]
    by_cases h10 : n < 10
    · simp only [h10, if_true]
      show foldDigits ([] ++ [Nat.digitChar n]) = n
      rw [foldDigits_append_singleton, (charVal_digitChar h10).1]
      simp [foldDigits]
    · simp only [h10, if_false]
      rw [foldDigits_append_singleton, ih (n / 10) (by omega),
        (charVal_digitChar (Nat.mod_lt n (by omega))).1]
      omega

theorem natCharsAux_lt_pow (fuel : Nat) : ∀ n, n < fuel →
    n < 10 ^ (natCharsAux fuel n).length := by
  induction fuel with
  | zero => intro n h; omega
  | succ fuel ih =>
    intro n hn
    rw [natCharsAux]
    by_cases h10 : n < 10
    · simp [h10]
    · simp only [h10, if_false, List.length_append, List.length_cons,
        List.length_nil]
      have hdiv := ih (n / 10) (by omega)
      have hpow : 10 ^ ((natCharsAux fuel (n / 10)).length + 1) =
          10 * 10 ^ (natCharsAux fuel (n / 10)).length := by
        rw [pow_succ]; ring
      rw [Nat.zero_add, hpow]
      omega

theorem natCharsAux_length_le (fuel : Nat) : ∀ n k, n < fuel → 1 ≤ k →
    n < 10 ^ k → (natCharsAux fuel n).length ≤ k := by
  induction fuel with
  | zero => intro n k h; omega
  | succ fuel ih =>
    intro n k hn hk hnk
    rw [natCharsAux]
    by_cases h10 : n < 10
    · simpa [h10] using hk
    · simp only [h10, if_false, List.length_append, List.length_cons,
        List.length_nil, Nat.zero_add]
      have hk2 : 2 ≤ k := by
        by_contra hcon
        have hk1 : k = 1 := by omega
        rw [hk1, pow_one] at hnk
        omega
      have hdivlt : n / 10 < 10 ^ (k - 1) := by
        have hsplit := pow_succ 10 (k - 1)
        have he : k - 1 + 1 = k := by omega
        rw [he] at hsplit
        rw [hsplit] at hnk
        omega
      have := ih (n / 10) (k - 1) (by omega) (by omega) hdivlt
      omega

theorem parseMI_formatMI (n : Nat) : parseMI (formatMI n) = some n := by
  have hne : natChars n ≠ [] := natCharsAux_ne_nil _ _ (Nat.lt_succ_self n)
  have hzne : zfill 5 (natChars n) ≠ [] := by
    intro hcon
    exact hne (List.append_eq_nil.mp hcon).2
  have hdig : (zfill 5 (natChars n)).all Char.isDigit = true := by
    rw [zfill, List.all_append]
    simp only [Bool.and_eq_true]
    exact ⟨by simp [List.all_eq_true], natCharsAux_all_digit _ _ (Nat.lt_succ_self n)⟩
  have hval : foldDigits (zfill 5 (natChars n)) = n := by
    rw [zfill]
    have hzeros : ∀ k cs, foldDigits (List.replicate k '0' ++ cs) = foldDigits cs := by
      intro k
      induction k with
      | zero => intro cs; rfl
      | succ k ihk =>
        intro cs
        rw [List.replicate_succ, List.cons_append]
        show foldDigits (List.replicate k '0' ++ cs) = foldDigits cs
        exact ihk cs
    rw [hzeros]
    exact foldDigits_natCharsAux _ _ (Nat.lt_succ_self n)
  have hdata : (formatMI n).data = "MI20-".data ++ zfill 5 (natChars n) := rfl
  rw [parseMI, hdata, List.take_append_of_le_length (by decide)]
  have htake : List.take 5 "MI20-".data = "MI20-".data := by decide
  rw [htake, if_pos rfl]
  have hdrop : List.drop 5 ("MI20-".data ++ zfill 5 (natChars n)) =
      zfill 5 (natChars n) := by
    have h5 : ("MI20-".data).length = 5 := by decide
    rw [← h5, List.drop_left]
  rw [hdrop, parseDecimal, if_pos ⟨hzne, hdig⟩, hval]

theorem formatMI_injective {m n : Nat} (h : formatMI m = formatMI n) : m = n := by
  have hm := parseMI_formatMI m
  have hn := parseMI_formatMI n
  rw [h, hn] at hm
  exact (Option.some_injective _ hm).symm

theorem formatMI_length (n : Nat) :
    (formatMI n).length = 5 + (zfill 5 (natChars n)).length := by
  show ("MI20-".data ++ zfill 5 (natChars n)).length = _
  rw [List.length_append]
  rfl

/-! ### Sample records and `assignMI.process_xml` -/

/-- A user-defined field element of a sample's XML record, reduced to
what the scripts read and write: the `name` and `type` attributes and
the element text. -/
structure UdfField where
  name : String
  type : String
  text : String
deriving DecidableEq

/-- The fixed field name targeted by the assignment. -/
def csnName : String := "Customer Sample Name"

/-- The field `process_xml` writes for counter value `n`. -/
def mkCSN (n : Nat) : UdfField := ⟨csnName, "String", formatMI n⟩

/-- The `for x in root.findall(udf) ... break` loop of `process_xml`:
overwrite the type and text of the first field named
"Customer Sample Name", or return `none` when no such field exists. -/
def setFirstCSN (n : Nat) : List UdfField → Option (List UdfField)
  | [] => none
  | f :: fs =>
    if f.name = csnName then
      some ({ f with type := "String", text := formatMI n } :: fs)
    else
      (setFirstCSN n fs).map (fun r => f :: r)

/-- `assignMI.process_xml`: rewrite the record's field list with the
identifier for the current counter value — overwriting the first
existing "Customer Sample Name" field, else appending a new one — and
return the new field list together with the incremented counter
(`self.mi_number += 1`). -/
def process_xml (n : Nat) (fields : List UdfField) : List UdfField × Nat :=
  match setFirstCSN n fields with
  | some fields2 => (fields2, n + 1)
  | none => (fields ++ [mkCSN n], n + 1)

/-! ### The assignment loop `assignMI.add_record` -/

/-- Remote LIMS behaviour visible to `add_record`, as oracles: the HTTP
status of the GET on a sample, the parse outcome of its body
(`ET.fromstring` raises on ill-formed XML, modelled as `Except Unit`),
and the status of the PUT of a rewritten record. -/
structure LimsEnv where
  getStatus : String → Nat
  getBody : String → Except Unit (List UdfField)
  putStatus : String → List UdfField → Nat

/-- Observable side effects of the assignment loop: the PUT of a
rewritten record, and the `logging.debug('Error sample: ...')` entry
naming a sample whose PUT did not return 200. -/
inductive Event where
  | putRecord (sample : String) (body : List UdfField)
  | logError (sample : String)
deriving DecidableEq

/-- `assignMI.add_record`: for each sample in order, GET the record
(without consulting the response status), rewrite it with
`process_xml`, PUT it back, and log an error naming the sample when
the PUT status is not 200.  Produces the events in order and either
the final counter or the parse failure that aborted the loop. -/
def add_record (env : LimsEnv) : List String → Nat → List Event × Except Unit Nat
  | [], n => ([], .ok n)
  | s :: rest, n =>
    match env.getBody s with
    | .error e => ([], .error e)
    | .ok fields =>
      let step := process_xml n fields
      let putEvs :=
        if env.putStatus s step.1 = 200 then [Event.putRecord s step.1]
        else [Event.putRecord s step.1, Event.logError s]
      let tail := add_record env rest step.2
      (putEvs ++ tail.1, tail.2)

/-- The identifier a PUT event carries: the text of the first
"Customer Sample Name" field of the body it submits. -/
def Event.putIdent : Event → Option String
  | .putRecord _ body => (body.find? (fun f => f.name == csnName)).map (fun f => f.text)
  | .logError _ => none

/-- The identifiers an event sequence writes onto samples, in order. -/
def identsOf (evs : List Event) : List String := evs.filterMap Event.putIdent

/-! ### The counter file: `read_mi` and `write_mmi` -/

/-- The counter file as `read_mi` can encounter it.  `yamlMap` is a
parsed key-value mapping (integer values are modelled as naturals, the
only values the scripts write); `malformed` stands for content the YAML
loader rejects; `absent` for a missing file. -/
inductive FileContent where
  | absent
  | malformed
  | yamlMap (entries : List (String × Nat))
deriving DecidableEq

/-- The ways loading the counter fails — the spec's ConfigurationError
class: `open` raises on a missing file, `yaml.load` on malformed
content, and the `mi_file['mi_number']` subscript on a missing key. -/
inductive LoadError where
  | fileMissing
  | malformedYaml
  | keyAbsent
deriving DecidableEq

/-- `assignMI.read_mi`. -/
def read_mi : FileContent → Except LoadError Nat
  | .absent => .error .fileMissing
  | .malformed => .error .malformedYaml
  | .yamlMap es =>
    match List.lookup "mi_number" es with
    | some v => .ok v
    | none => .error .keyAbsent

/-- `assignMI.write_mmi`: the content written to the counter file,
`yaml.dump({'mi_number': self.mi_number})`. -/
def write_mmi (n : Nat) : List (String × Nat) := [("mi_number", n)]

/-- `write_mmi` seen against the file's previous content:
`open(path, 'w')` truncates, so the previous entries are discarded
entirely and the dumped single-key mapping replaces them. -/
def write_mmi_file (_prev : List (String × Nat)) (n : Nat) : List (String × Nat) :=
  write_mmi n

/-! ### Sample resolution: `RecordWriter.get_sample_urls` -/

/-- An XML element, reduced to its attribute mapping — all the fetch
code reads of one. -/
structure XmlElem where
  attrs : List (String × String)
deriving DecidableEq

/-- Attribute lookup, `child.attrib[k]` guarded by `k in child.attrib`. -/
def XmlElem.attr (e : XmlElem) (k : String) : Option String := List.lookup k e.attrs

/-- Python exceptions the resolution path can raise. -/
inductive PyError where
  | keyError (key : String)
  | environmentError (msg : String)
deriving DecidableEq

/-- Remote behaviour visible to `get_sample_urls`: the status of the GET
on the process resource, the `input` elements of its body, and — per
post-process URI — the status and child elements of the GET on it. -/
structure ProcEnv where
  procStatus : Nat
  procInputs : List XmlElem
  urlStatus : String → Nat
  urlChildren : String → List XmlElem

/-- `RecordWriter._get_sample_ids`: GET each URL, abort with the logged
EnvironmentError on a non-200 status, else collect the `limsid`
attribute of each child element, in order. -/
def get_sample_ids (env : ProcEnv) : List String → Except PyError (List String)
  | [] => .ok []
  | url :: rest =>
    if env.urlStatus url = 200 then
      match get_sample_ids env rest with
      | .ok more =>
        .ok ((env.urlChildren url).filterMap (fun e => e.attr "limsid") ++ more)
      | .error e => .error e
    else
      .error (.environmentError ("Call to " ++ url ++ " failed"))

/-- `RecordWriter.get_sample_urls`.  On a non-200 process read the code
builds its message with `"Call to \x7bsample_url\x7d failed".format(sample_url)`:
`str.format` receives the argument positionally but the placeholder is
named, so the call raises `KeyError("sample_url")` on the spot, and the
`try/finally` on the lines below it — which would log the message and
raise `EnvironmentError` — is never entered.  On a 200 it collects the
`post-process-uri` attribute of each `input` element and resolves the
sample ids behind those URIs. -/
def get_sample_urls (env : ProcEnv) : Except PyError (List String) :=
  if env.procStatus = 200 then
    get_sample_ids env ((env.procInputs).filterMap (fun e => e.attr "post-process-uri"))
  else
    .error (.keyError "sample_url")

/-! ### The locked run: `assign_mi.main` -/

/-- Insert a string into an ascending list, comparing code-point
lexicographically as Python compares strings. -/
def insertSorted (a : String) : List String → List String
  | [] => [a]
  | b :: bs => if a.data < b.data then a :: b :: bs else b :: insertSorted a bs

/-- `list(set(sample_list))` followed by `.sort()`: the distinct sample
ids in ascending order. -/
def sortedSet (l : List String) : List String :=
  (l.foldr (fun a r => if a ∈ r then r else a :: r) []).foldr insertSorted []

/-- Everything outside the process that a run of `assign_mi.main` can
observe: the LIMS as seen by sample resolution and by the assignment
loop. -/
structure MainEnv where
  proc : ProcEnv
  lims : LimsEnv

/-- The uncaught exception terminating a run, when one is raised. -/
inductive RunError where
  | loadErr (e : LoadError)
  | resolveErr (e : PyError)
  | xmlParseErr
deriving DecidableEq

/-- What a run leaves behind: whether the file lock was released, the
remote events of the assignment loop, the counter file content written
by `write_mmi` (`none` when the write was never reached), and how the
run ended. -/
structure RunOutcome where
  lockReleased : Bool
  events : List Event
  writtenCounterFile : Option (List (String × Nat))
  result : Except RunError Unit
deriving DecidableEq

/-- The `with lock:` body of `assign_mi.main`: load the counter,
increment it once (`am.mi_number += 1`), resolve the samples, run
`add_record` — the deduplicated sorted `sample_set` is computed but
`sample_list` is what is passed — and persist the counter.  A raised
exception stops the run at that point; the `with` statement releases
the file lock on normal and exceptional exit alike, so `lockReleased`
is true in every outcome. -/
def main_run (file : FileContent) (env : MainEnv) : RunOutcome :=
  match read_mi file with
  | .error e => ⟨true, [], none, .error (.loadErr e)⟩
  | .ok c =>
    match get_sample_urls env.proc with
    | .error e => ⟨true, [], none, .error (.resolveErr e)⟩
    | .ok sample_list =>
      let _sample_set := sortedSet sample_list
      let loop := add_record env.lims sample_list (c + 1)
      match loop.2 with
      | .error _ => ⟨true, loop.1, none, .error .xmlParseErr⟩
      | .ok cFinal => ⟨true, loop.1, some (write_mmi cFinal), .ok ()⟩

/-! ### Record fetch: `RecordWriter.get_sample_json` -/

/-- A field of the xmltodict view of a sample record: the `@name` and
`@type` attributes and the `#text` value. -/
structure JsonField where
  name : String
  type : String
  text : String
deriving DecidableEq

/-- A fetched sample: its id and the `udf:field` entries of its record,
as the GET on `samples/\x7bid\x7d` returned them. -/
structure FetchedSample where
  sid : String
  fields : List JsonField
deriving DecidableEq

/-- Failures of `get_sample_json`: the invalid-version `Exception` and
the per-field `EnvironmentError` naming the offending field and sample —
the spec's ValidationError. -/
inductive FetchError where
  | invalidVersion (version : String)
  | validation (fieldName sample : String)
deriving DecidableEq

/-- Python's `str.lower()`, applied per code point. -/
def pyLower (s : String) : String := String.mk (s.data.map Char.toLower)

/-- The required-field list `get_sample_json` selects for a version, or
the invalid-version failure. -/
def requiredFields (version : String) : Except FetchError (List String) :=
  if pyLower version = "v1" then
    .ok ["Physician Phone #", "Patient Name", "Customer Sample Name",
      "Date of Birth", "Sex", "Specimen Site", "Receipt Date",
      "Received Time", "Physician", "Physician Institution",
      "Collection Date", "Collection Time", "Final.Result", "Batch ID",
      "Batch QC Result", "ORF1ab", "ORF1ab_STATUS", "N_Protein",
      "N_Protein_STATUS", "S_Protein", "S_Protein_STATUS", "MS2",
      "MS2_STATUS", "Status", "Medical Record Number"]
  else if pyLower version = "v2" then
    .ok ["Physician Phone #", "Patient Name", "Customer Sample Name",
      "Date of Birth", "Sex", "Specimen Site", "Receipt Date",
      "Received Time", "Physician", "Physician Institution",
      "Collection Date", "Collection Time", "Final.Result", "Batch ID",
      "Batch QC Result", "Status", "Medical Record Number"]
  else
    .error (.invalidVersion version)

/-- The per-field test of the validation loop: the field is required and
its text is the case-insensitive literal "none" or the empty string. -/
def fieldKo (required : List String) (f : JsonField) : Bool :=
  required.contains f.name && (pyLower f.text == "none" || f.text == "")

/-- The inner validation loop over one sample's fields: raise the logged
EnvironmentError at the first offending field. -/
def checkFields (required : List String) (sid : String) :
    List JsonField → Except FetchError Unit
  | [] => .ok ()
  | f :: fs =>
    if fieldKo required f then .error (.validation f.name sid)
    else checkFields required sid fs

/-- The loop of `get_sample_json`: validate each fetched sample, append
its `Template_version` field, and collect the records in order. -/
def buildJson (required : List String) (version : String) :
    List FetchedSample → Except FetchError (List FetchedSample)
  | [] => .ok []
  | s :: rest =>
    match checkFields required s.sid s.fields with
    | .error e => .error e
    | .ok _ =>
      match buildJson required version rest with
      | .error e => .error e
      | .ok more =>
        .ok ({ s with
          fields := s.fields ++ [⟨"Template_version", "String", version⟩] } :: more)

/-- `RecordWriter.get_sample_json`, with the fetched records supplied as
data: dispatch on the version, validate every sample and build the JSON
list. -/
def get_sample_json (version : String) (samples : List FetchedSample) :
    Except FetchError (List FetchedSample) :=
  match requiredFields version with
  | .error e => .error e
  | .ok required => buildJson required version samples

/-- The output file of a run of `get_sample_json`: it is opened and
written only after the loop completes, so a raised exception means no
file is created. -/
def outputFileContent (version : String) (samples : List FetchedSample) :
    Option (List FetchedSample) :=
  match get_sample_json version samples with
  | .ok l => some l
  | .error _ => none

/-! ### Facts about `natChars` at its standard fuel -/

theorem natChars_ne_nil (n : Nat) : natChars n ≠ [] :=
  natCharsAux_ne_nil _ _ (Nat.lt_succ_self n)

theorem natChars_lt_pow (n : Nat) : n < 10 ^ (natChars n).length :=
  natCharsAux_lt_pow _ _ (Nat.lt_succ_self n)

theorem natChars_length_le (n k : Nat) (hk : 1 ≤ k) (h : n < 10 ^ k) :
    (natChars n).length ≤ k :=
  natCharsAux_length_le _ _ _ (Nat.lt_succ_self n) hk h

/-! ### Facts about `setFirstCSN` and `process_xml` -/

theorem setFirstCSN_eq_none {n : Nat} {fields : List UdfField} :
    setFirstCSN n fields = none ↔ ∀ f ∈ fields, f.name ≠ csnName := by
  induction fields with
  | nil => simp [setFirstCSN]
  | cons f fs ih =>
    rw [setFirstCSN]
    by_cases hf : f.name = csnName
    · simp [hf]
    · simp [hf, Option.map_eq_none', ih]

theorem setFirstCSN_eq_some {n : Nat} {fields r : List UdfField}
    (h : setFirstCSN n fields = some r) :
    ∃ pre f suf, fields = pre ++ f :: suf ∧ (∀ g ∈ pre, g.name ≠ csnName) ∧
      f.name = csnName ∧ r = pre ++ mkCSN n :: suf := by
  induction fields generalizing r with
  | nil => simp [setFirstCSN] at h
  | cons f fs ih =>
    rw [setFirstCSN] at h
    by_cases hf : f.name = csnName
    · rw [if_pos hf] at h
      refine ⟨[], f, fs, rfl, by simp, hf, ?_⟩
      have hrepl : ({ f with type := "String", text := formatMI n } : UdfField) =
          mkCSN n := by
        cases f
        subst hf
        rfl
      have hr := Option.some.inj h
      rw [List.nil_append, ← hr, hrepl]
    · rw [if_neg hf] at h
      obtain ⟨r2, hr2, hfr⟩ := Option.map_eq_some'.mp h
      obtain ⟨pre, g, suf, hsplit, hpre, hg, hset⟩ := ih hr2
      refine ⟨f :: pre, g, suf, by rw [hsplit]; rfl, ?_, hg, ?_⟩
      · intro x hx
        rcases List.mem_cons.mp hx with rfl | hx2
        · exact hf
        · exact hpre x hx2
      · rw [← hfr, hset]
        rfl

theorem process_xml_counter (n : Nat) (fields : List UdfField) :
    (process_xml n fields).2 = n + 1 := by
  rcases hsf : setFirstCSN n fields with _ | r <;> simp [process_xml, hsf]

theorem process_xml_find (n : Nat) (fields : List UdfField) :
    (process_xml n fields).1.find? (fun f => f.name == csnName) = some (mkCSN n) := by
  rcases hsf : setFirstCSN n fields with _ | r
  · have hnone := setFirstCSN_eq_none.mp hsf
    simp only [process_xml, hsf]
    rw [List.find?_append]
    have h1 : fields.find? (fun f => f.name == csnName) = none := by
      rw [List.find?_eq_none]
      intro x hx
      simpa using hnone x hx
    rw [h1]
    simp [mkCSN]
  · obtain ⟨pre, g, suf, hsplit, hpre, hg, hset⟩ := setFirstCSN_eq_some hsf
    simp only [process_xml, hsf, hset]
    rw [List.find?_append]
    have h1 : pre.find? (fun f => f.name == csnName) = none := by
      rw [List.find?_eq_none]
      intro x hx
      simpa using hpre x hx
    rw [h1]
    simp [mkCSN]

/-! ### Facts about `add_record` -/

theorem add_record_ok (env : LimsEnv) (samples : List String) :
    ∀ c, (∀ s ∈ samples, ∃ b, env.getBody s = Except.ok b) →
    (add_record env samples c).2 = .ok (c + samples.length) := by
  induction samples with
  | nil => intro c _; simp [add_record]
  | cons s rest ih =>
    intro c h
    obtain ⟨b, hb⟩ := h s (by simp)
    have htail := ih (c + 1) (fun x hx => h x (by simp [hx]))
    simp only [add_record, hb, List.length_cons]
    rw [process_xml_counter, htail]
    have harith : c + 1 + rest.length = c + (rest.length + 1) := by omega
    rw [harith]

theorem add_record_idents (env : LimsEnv) (samples : List String) :
    ∀ c, (∀ s ∈ samples, ∃ b, env.getBody s = Except.ok b) →
    identsOf (add_record env samples c).1 =
      (List.range samples.length).map (fun i => formatMI (c + i)) := by
  induction samples with
  | nil => intro c _; simp [add_record, identsOf]
  | cons s rest ih =>
    intro c h
    obtain ⟨b, hb⟩ := h s (by simp)
    have htail := ih (c + 1) (fun x hx => h x (by simp [hx]))
    have hident : Event.putIdent (Event.putRecord s (process_xml c b).1) =
        some (formatMI c) := by
      rw [Event.putIdent, process_xml_find]
      rfl
    simp only [add_record, hb]
    rw [identsOf, List.filterMap_append, process_xml_counter]
    have hhead : ∀ l : List Event, List.filterMap Event.putIdent
        (Event.putRecord s (process_xml c b).1 :: l) =
        formatMI c :: List.filterMap Event.putIdent l := by
      intro l
      rw [List.filterMap_cons, hident]
    have hif : List.filterMap Event.putIdent
        (if env.putStatus s (process_xml c b).1 = 200
         then [Event.putRecord s (process_xml c b).1]
         else [Event.putRecord s (process_xml c b).1, Event.logError s]) =
        [formatMI c] := by
      by_cases hput : env.putStatus s (process_xml c b).1 = 200
      · rw [if_pos hput, hhead]
        rfl
      · rw [if_neg hput, hhead]
        rfl
    rw [hif]
    show formatMI c :: identsOf (add_record env rest (c + 1)).1 = _
    rw [htail, List.length_cons, List.range_succ_eq_map, List.map_cons, List.map_map]
    congr 1
    apply List.map_congr_left
    intro i _
    show formatMI (c + 1 + i) = formatMI (c + (i + 1))
    congr 1
    omega

theorem add_record_puts (env : LimsEnv) (samples : List String) :
    ∀ c, (∀ s ∈ samples, ∃ b, env.getBody s = Except.ok b) →
    ∀ s ∈ samples, ∃ body, Event.putRecord s body ∈ (add_record env samples c).1 ∧
      (env.putStatus s body ≠ 200 → Event.logError s ∈ (add_record env samples c).1) := by
  induction samples with
  | nil => intro c _ s hs; simp at hs
  | cons s0 rest ih =>
    intro c h s hs
    obtain ⟨b, hb⟩ := h s0 (by simp)
    simp only [add_record, hb]
    rcases List.mem_cons.mp hs with rfl | hsr
    · refine ⟨(process_xml c b).1, ?_, ?_⟩
      · apply List.mem_append_left
        by_cases hput : env.putStatus s (process_xml c b).1 = 200 <;> simp [hput]
      · intro hput
        apply List.mem_append_left
        simp [if_neg hput]
    · obtain ⟨body, hmem, hlog⟩ :=
        ih (process_xml c b).2 (fun x hx => h x (by simp [hx])) s hsr
      exact ⟨body, List.mem_append_right _ hmem,
        fun hp => List.mem_append_right _ (hlog hp)⟩

/-- Whether an event is the PUT of a record. -/
def Event.isPut : Event → Bool
  | .putRecord _ _ => true
  | .logError _ => false

theorem add_record_put_count (env : LimsEnv) (samples : List String) :
    ∀ c, (∀ s ∈ samples, ∃ b, env.getBody s = Except.ok b) →
    (add_record env samples c).1.countP Event.isPut = samples.length := by
  induction samples with
  | nil => intro c _; simp [add_record]
  | cons s rest ih =>
    intro c h
    obtain ⟨b, hb⟩ := h s (by simp)
    have htail := ih (process_xml c b).2 (fun x hx => h x (by simp [hx]))
    simp only [add_record, hb]
    rw [List.countP_append, htail]
    have hhead : (if env.putStatus s (process_xml c b).1 = 200
        then [Event.putRecord s (process_xml c b).1]
        else [Event.putRecord s (process_xml c b).1,
          Event.logError s]).countP Event.isPut = 1 := by
      by_cases hput : env.putStatus s (process_xml c b).1 = 200 <;>
        simp [hput, Event.isPut]
    rw [hhead, List.length_cons]
    omega

theorem add_record_getStatus_irrel (env : LimsEnv) (g : String → Nat)
    (samples : List String) :
    ∀ c, add_record { env with getStatus := g } samples c = add_record env samples c := by
  induction samples with
  | nil => intro c; rfl
  | cons s rest ih =>
    intro c
    cases hb : env.getBody s with
    | error e => simp [add_record, hb]
    | ok b => simp [add_record, hb, ih]

/-! ### Facts about the validation loop of `get_sample_json` -/

theorem fieldKo_iff (required : List String) (f : JsonField) :
    fieldKo required f = true ↔
      f.name ∈ required ∧ (pyLower f.text = "none" ∨ f.text = "") := by
  simp [fieldKo]

theorem checkFields_ok_or_validation (required : List String) (sid : String)
    (fields : List JsonField) :
    checkFields required sid fields = .ok () ∨
    ∃ fn, checkFields required sid fields = .error (.validation fn sid) := by
  induction fields with
  | nil => exact Or.inl rfl
  | cons f fs ih =>
    rw [checkFields]
    by_cases hko : fieldKo required f = true
    · exact Or.inr ⟨f.name, by rw [if_pos hko]⟩
    · rw [if_neg hko]
      exact ih

theorem checkFields_ne_ok (required : List String) (sid : String)
    (fields : List JsonField) (f : JsonField) (hf : f ∈ fields)
    (hko : fieldKo required f = true) :
    checkFields required sid fields ≠ .ok () := by
  induction fields with
  | nil => simp at hf
  | cons g fs ih =>
    rw [checkFields]
    by_cases hg : fieldKo required g = true
    · rw [if_pos hg]
      exact fun hcon => Except.noConfusion hcon
    · rw [if_neg hg]
      rcases List.mem_cons.mp hf with rfl | hfs
      · exact absurd hko hg
      · exact ih hfs

theorem buildJson_validation (required : List String) (version : String)
    (samples : List FetchedSample)
    (hbad : ∃ s ∈ samples, ∃ f ∈ s.fields, fieldKo required f = true) :
    ∃ fn sid, buildJson required version samples = .error (.validation fn sid) := by
  induction samples with
  | nil => simp at hbad
  | cons s rest ih =>
    rcases checkFields_ok_or_validation required s.sid s.fields with hok | ⟨fn, herr⟩
    · obtain ⟨s2, hs2, f, hf, hko⟩ := hbad
      rcases List.mem_cons.mp hs2 with rfl | hrest
      · exact absurd hok (checkFields_ne_ok _ _ _ f hf hko)
      · obtain ⟨fn, sid, hbuild⟩ := ih ⟨s2, hrest, f, hf, hko⟩
        refine ⟨fn, sid, ?_⟩
        simp only [buildJson, hok, hbuild]
    · exact ⟨fn, s.sid, by simp only [buildJson, herr]⟩

/-! ### Concrete fixtures for witnesses and counterexamples -/

/-- Fixture: a process whose read succeeds and whose one post-process URI
lists the single sample "S1". -/
def envOneProc : ProcEnv :=
  ⟨200, [⟨[("post-process-uri", "u1")]⟩], fun _ => 200,
    fun _ => [⟨[("limsid", "S1")]⟩]⟩

/-- Fixture: the same process read, but the post-process URI lists the
sample "S1" twice. -/
def envDupProc : ProcEnv :=
  ⟨200, [⟨[("post-process-uri", "u1")]⟩], fun _ => 200,
    fun _ => [⟨[("limsid", "S1")]⟩, ⟨[("limsid", "S1")]⟩]⟩

/-- Fixture: a LIMS on which every sample GET parses to a one-field
record and every PUT succeeds. -/
def limsAllOk : LimsEnv :=
  ⟨fun _ => 200, fun _ => .ok [⟨"Patient Name", "String", "X"⟩], fun _ _ => 200⟩

/-- Fixture: the same LIMS, but every PUT returns 500. -/
def limsPutFail : LimsEnv := { limsAllOk with putStatus := fun _ _ => 500 }

/-! ### The claims -/

/-- C1, as stated, is false on the code: `main` increments the loaded
counter once before the loop (`am.mi_number += 1`), so starting from
persisted counter 0 with one resolved sample the identifier written is
the formatted string for 1, not 0, and the persisted result is 2, not
0 + 1.  This closed counterexample evaluates the run at that input. -/
theorem claim_C1_cex :
    (main_run (.yamlMap [("mi_number", 0)]) ⟨envOneProc, limsAllOk⟩).writtenCounterFile ≠
      some (write_mmi (0 + 1)) ∧
    identsOf (main_run (.yamlMap [("mi_number", 0)]) ⟨envOneProc, limsAllOk⟩).events ≠
      [formatMI 0] := by
  decide

/-- C1 amended: for every run that assigns identifiers to the N resolved
samples starting from persisted counter value C, the counter value
persisted at the end of the run is C+N+1 (the loaded value is
incremented once before the loop and once per sample), and the
identifiers written onto the samples, in sequence order, are the
formatted strings for C+1, C+2, ..., C+N — each unique. -/
theorem claim_C1_amended (C : Nat) (es : List (String × Nat)) (env : MainEnv)
    (samples : List String)
    (hfile : List.lookup "mi_number" es = some C)
    (hres : get_sample_urls env.proc = .ok samples)
    (hok : ∀ s ∈ samples, ∃ b, env.lims.getBody s = Except.ok b) :
    (main_run (.yamlMap es) env).writtenCounterFile =
      some (write_mmi (C + samples.length + 1)) ∧
    identsOf (main_run (.yamlMap es) env).events =
      (List.range samples.length).map (fun i => formatMI (C + 1 + i)) ∧
    (identsOf (main_run (.yamlMap es) env).events).Nodup ∧
    (main_run (.yamlMap es) env).lockReleased = true := by
  have hread : read_mi (FileContent.yamlMap es) = .ok C := by
    simp only [read_mi, hfile]
  have hadd := add_record_ok env.lims samples (C + 1) hok
  have hidents := add_record_idents env.lims samples (C + 1) hok
  have hrun : main_run (.yamlMap es) env =
      ⟨true, (add_record env.lims samples (C + 1)).1,
        some (write_mmi (C + 1 + samples.length)), .ok ()⟩ := by
    simp only [main_run, hread, hres]
    rw [hadd]
  have harith : C + 1 + samples.length = C + samples.length + 1 := by omega
  rw [hrun, harith]
  refine ⟨rfl, hidents, ?_, rfl⟩
  rw [hidents]
  refine (List.nodup_range samples.length).map ?_
  intro i j hij
  have := formatMI_injective hij
  omega

/-- C2 is a code bug: `main` computes the deduplicated, sorted
`sample_set` from the resolved `sample_list` but then passes
`sample_list` itself to `add_record`, so a sample id appearing twice in
the resolved list receives two distinct identifiers in one run.  Here
the process resolves to `["S1", "S1"]`, the computed deduplicated sorted
set is `["S1"]`, yet the run PUTs the record of S1 twice, carrying the
identifiers for counter values 1 and 2. -/
theorem claim_C2 :
    get_sample_urls envDupProc = .ok ["S1", "S1"] ∧
    sortedSet ["S1", "S1"] = ["S1"] ∧
    identsOf (main_run (.yamlMap [("mi_number", 0)]) ⟨envDupProc, limsAllOk⟩).events =
      ["MI20-00001", "MI20-00002"] ∧
    ((main_run (.yamlMap [("mi_number", 0)]) ⟨envDupProc, limsAllOk⟩).events.countP
      fun e => match e with
        | Event.putRecord s _ => s == "S1"
        | Event.logError _ => false) = 2 := by
  decide

/-- C3: for every sample in the assignment loop whose PUT returns a
non-success status, the in-memory counter still advances by one (the
final counter is the start value plus the full sample count, whatever
the PUT statuses), a log entry naming the sample is produced, and the
loop continues: every sample in the list gets exactly one PUT and the
loop returns normally — no early termination, no rollback, no retry. -/
theorem claim_C3 (env : LimsEnv) (c : Nat) (samples : List String)
    (hok : ∀ s ∈ samples, ∃ b, env.getBody s = Except.ok b) :
    (add_record env samples c).2 = .ok (c + samples.length) ∧
    (add_record env samples c).1.countP Event.isPut = samples.length ∧
    ∀ s ∈ samples, ∃ body, Event.putRecord s body ∈ (add_record env samples c).1 ∧
      (env.putStatus s body ≠ 200 → Event.logError s ∈ (add_record env samples c).1) :=
  ⟨add_record_ok env samples c hok, add_record_put_count env samples c hok,
    add_record_puts env samples c hok⟩

/-- Witness for C3 at a concrete input: two samples, every PUT failing
with status 500. -/
theorem claim_C3_w :
    (add_record limsPutFail ["A", "B"] 7).2 = .ok (7 + ["A", "B"].length) ∧
    (add_record limsPutFail ["A", "B"] 7).1.countP Event.isPut = ["A", "B"].length ∧
    ∀ s ∈ ["A", "B"], ∃ body,
      Event.putRecord s body ∈ (add_record limsPutFail ["A", "B"] 7).1 ∧
      (limsPutFail.putStatus s body ≠ 200 →
        Event.logError s ∈ (add_record limsPutFail ["A", "B"] 7).1) :=
  claim_C3 limsPutFail 7 ["A", "B"] (by intro s _; exact ⟨_, rfl⟩)

/-- C4: if the counter file is missing, malformed, or lacks the
`mi_number` key, loading fails with one of the configuration errors, the
run performs no remote assignment and writes no counter file, and the
file lock is still released on that exceptional exit. -/
theorem claim_C4 (file : FileContent) (env : MainEnv)
    (h : file = .absent ∨ file = .malformed ∨
      ∃ es, file = .yamlMap es ∧ List.lookup "mi_number" es = none) :
    ∃ e : LoadError, read_mi file = .error e ∧
      main_run file env = ⟨true, [], none, .error (.loadErr e)⟩ := by
  have herr : ∃ e, read_mi file = .error e := by
    rcases h with rfl | rfl | ⟨es, rfl, hlook⟩
    · exact ⟨.fileMissing, rfl⟩
    · exact ⟨.malformedYaml, rfl⟩
    · exact ⟨.keyAbsent, by simp only [read_mi, hlook]⟩
  obtain ⟨e, he⟩ := herr
  exact ⟨e, he, by simp only [main_run, he]⟩

/-- Witness for C4 at a concrete input: the counter file is absent. -/
theorem claim_C4_w :
    ∃ e : LoadError, read_mi .absent = .error e ∧
      main_run .absent ⟨envOneProc, limsAllOk⟩ = ⟨true, [], none, .error (.loadErr e)⟩ :=
  claim_C4 .absent ⟨envOneProc, limsAllOk⟩ (Or.inl rfl)

/-- C5: for every run of the record fetch in which some fetched sample
has a required field whose text is the case-insensitive literal "none"
or the empty string, `get_sample_json` fails with the per-field
validation error and writes no output file. -/
theorem claim_C5 (version : String) (required : List String)
    (samples : List FetchedSample)
    (hver : requiredFields version = .ok required)
    (hbad : ∃ s ∈ samples, ∃ f ∈ s.fields,
      f.name ∈ required ∧ (pyLower f.text = "none" ∨ f.text = "")) :
    (∃ fieldName sampleId, get_sample_json version samples =
      .error (.validation fieldName sampleId)) ∧
    outputFileContent version samples = none := by
  obtain ⟨s, hs, f, hf, hprop⟩ := hbad
  obtain ⟨fn, sid, hbuild⟩ := buildJson_validation required version samples
    ⟨s, hs, f, hf, (fieldKo_iff required f).mpr hprop⟩
  have hjson : get_sample_json version samples = .error (.validation fn sid) := by
    simp only [get_sample_json, hver, hbuild]
  refine ⟨⟨fn, sid, hjson⟩, ?_⟩
  rw [outputFileContent, hjson]

/-- Witness for C5 at a concrete input: version v1, one sample whose
required "Sex" field holds the literal "None". -/
theorem claim_C5_w :
    (∃ fieldName sampleId,
      get_sample_json "v1" [⟨"S1", [⟨"Sex", "String", "None"⟩]⟩] =
        .error (.validation fieldName sampleId)) ∧
    outputFileContent "v1" [⟨"S1", [⟨"Sex", "String", "None"⟩]⟩] = none :=
  claim_C5 "v1" ["Physician Phone #", "Patient Name", "Customer Sample Name",
    "Date of Birth", "Sex", "Specimen Site", "Receipt Date", "Received Time",
    "Physician", "Physician Institution", "Collection Date", "Collection Time",
    "Final.Result", "Batch ID", "Batch QC Result", "ORF1ab", "ORF1ab_STATUS",
    "N_Protein", "N_Protein_STATUS", "S_Protein", "S_Protein_STATUS", "MS2",
    "MS2_STATUS", "Status", "Medical Record Number"]
    [⟨"S1", [⟨"Sex", "String", "None"⟩]⟩] (by decide)
    ⟨⟨"S1", [⟨"Sex", "String", "None"⟩]⟩, by decide, ⟨"Sex", "String", "None"⟩,
      by decide, by decide, Or.inl (by decide)⟩

/-- C6: formatting a counter value and parsing the numeric suffix back
recovers the original integer — in fact for every value, because
`zfill` never truncates; for values up to 99999 the identifier has the
padded width (5 tag characters plus 5 digits), and for values at and
above 100000 the rendered number overflows the padding width (the
padding is the identity there) rather than being truncated. -/
theorem claim_C6 (n : Nat) :
    parseMI (formatMI n) = some n ∧
    (n ≤ 99999 → (formatMI n).length = 10) ∧
    (100000 ≤ n → zfill 5 (natChars n) = natChars n ∧ 10 < (formatMI n).length) := by
  refine ⟨parseMI_formatMI n, ?_, ?_⟩
  · intro hn
    have hlen : (natChars n).length ≤ 5 :=
      natChars_length_le n 5 (by omega) (by omega)
    rw [formatMI_length, zfill, List.length_append, List.length_replicate]
    omega
  · intro hn
    have hlt := natChars_lt_pow n
    have hpow5 : (10 : Nat) ^ 5 = 100000 := by norm_num
    have hlen : 6 ≤ (natChars n).length := by
      by_contra hcon
      have h5 : (natChars n).length ≤ 5 := by omega
      have hmono : (10 : Nat) ^ (natChars n).length ≤ 10 ^ 5 :=
        Nat.pow_le_pow_right (by omega) h5
      omega
    have hid : zfill 5 (natChars n) = natChars n := by
      rw [zfill]
      have h0 : 5 - (natChars n).length = 0 := by omega
      rw [h0, List.replicate_zero, List.nil_append]
    refine ⟨hid, ?_⟩
    rw [formatMI_length, hid]
    omega

/-- Witness for C6 at concrete inputs: 42 (within the padded width) and
123456 (overflowing it). -/
theorem claim_C6_w :
    (formatMI 42).length = 10 ∧
    (zfill 5 (natChars 123456) = natChars 123456 ∧ 10 < (formatMI 123456).length) ∧
    parseMI (formatMI 123456) = some 123456 :=
  ⟨(claim_C6 42).2.1 (by decide), (claim_C6 123456).2.2 (by decide),
    (claim_C6 123456).1⟩

/-- C7 is a code bug: on a non-200 process read, `get_sample_urls`
builds its message with a named placeholder but a positional argument,
so `str.format` raises `KeyError("sample_url")` and the logged
`EnvironmentError` below it is never raised; the claim's
IntegrationError only surfaces on the per-URI sample reads (second
conjunct), and the success path returns the listed sample ids in order
(third conjunct). -/
theorem claim_C7 :
    get_sample_urls { envOneProc with procStatus := 404 } =
      .error (.keyError "sample_url") ∧
    get_sample_urls { envOneProc with urlStatus := fun _ => 500 } =
      .error (.environmentError "Call to u1 failed") ∧
    get_sample_urls envOneProc = .ok ["S1"] := by
  decide

/-- C8: for every sample record processed during assignment, if a field
slot with the fixed name "Customer Sample Name" already exists, the
first such slot is overwritten with the String type marker and the
formatted identifier and every other field is unchanged; if no such
field exists, a single new field with that name, type marker and value
is appended to the record — exactly one field with that name is written
either way. -/
theorem claim_C8 (n : Nat) (fields : List UdfField) :
    (∃ pre f suf, fields = pre ++ f :: suf ∧ (∀ g ∈ pre, g.name ≠ csnName) ∧
      f.name = csnName ∧ (process_xml n fields).1 = pre ++ mkCSN n :: suf) ∨
    ((∀ f ∈ fields, f.name ≠ csnName) ∧
      (process_xml n fields).1 = fields ++ [mkCSN n]) := by
  rcases hsf : setFirstCSN n fields with _ | r
  · exact Or.inr ⟨setFirstCSN_eq_none.mp hsf, by simp [process_xml, hsf]⟩
  · obtain ⟨pre, f, suf, hsplit, hpre, hf, hset⟩ := setFirstCSN_eq_some hsf
    exact Or.inl ⟨pre, f, suf, hsplit, hpre, hf, by simp [process_xml, hsf, hset]⟩

/-- C9: persisting the counter overwrites the counter file with content
holding only the single `mi_number` key — whatever entries the file held
before the run, none of them is preserved by the write. -/
theorem claim_C9 (prev : List (String × Nat)) (n : Nat) :
    write_mmi_file prev n = [("mi_number", n)] ∧
    List.lookup "mi_number" (write_mmi_file prev n) = some n ∧
    ∀ k, k ≠ "mi_number" → List.lookup k (write_mmi_file prev n) = none := by
  refine ⟨rfl, by simp [write_mmi_file, write_mmi, List.lookup], ?_⟩
  intro k hk
  simp [write_mmi_file, write_mmi, List.lookup, beq_false_of_ne hk]

/-- Witness for C9 at a concrete input: a previous file carrying an
extra key, which the write does not preserve. -/
theorem claim_C9_w :
    write_mmi_file [("mi_number", 3), ("other", 7)] 9 = [("mi_number", 9)] ∧
    List.lookup "mi_number" (write_mmi_file [("mi_number", 3), ("other", 7)] 9) =
      some 9 ∧
    List.lookup "other" (write_mmi_file [("mi_number", 3), ("other", 7)] 9) = none :=
  ⟨(claim_C9 [("mi_number", 3), ("other", 7)] 9).1,
    (claim_C9 [("mi_number", 3), ("other", 7)] 9).2.1,
    (claim_C9 [("mi_number", 3), ("other", 7)] 9).2.2 "other" (by decide)⟩

/-- C10: the assignment loop never consults the status of the initial
GET — replacing the GET-status oracle changes nothing in the loop's
outcome — and, provided every response body parses, the counter
advances once per sample and each sample's rewritten record is PUT
(exactly one PUT per list entry), whatever the fetch statuses were. -/
theorem claim_C10 (env : LimsEnv) (g : String → Nat) (c : Nat) (samples : List String)
    (hok : ∀ s ∈ samples, ∃ b, env.getBody s = Except.ok b) :
    add_record { env with getStatus := g } samples c = add_record env samples c ∧
    (add_record env samples c).2 = .ok (c + samples.length) ∧
    ∀ s ∈ samples, ∃ body, Event.putRecord s body ∈ (add_record env samples c).1 :=
  ⟨add_record_getStatus_irrel env g samples c, add_record_ok env samples c hok,
    fun s hs => (add_record_puts env samples c hok s hs).imp
      fun _ hbody => hbody.1⟩

/-- Witness for C10 at a concrete input: one sample, a GET-status oracle
answering 404 everywhere. -/
theorem claim_C10_w :
    add_record { limsAllOk with getStatus := fun _ => 404 } ["A"] 0 =
      add_record limsAllOk ["A"] 0 ∧
    (add_record limsAllOk ["A"] 0).2 = .ok (0 + ["A"].length) ∧
    ∀ s ∈ ["A"], ∃ body, Event.putRecord s body ∈ (add_record limsAllOk ["A"] 0).1 :=
  claim_C10 limsAllOk (fun _ => 404) 0 ["A"] (by intro s _; exact ⟨_, rfl⟩)

/-- Witness for C1 amended at a concrete input: persisted counter 0, one
resolved sample. -/
theorem claim_C1_w :
    (main_run (.yamlMap [("mi_number", 0)]) ⟨envOneProc, limsAllOk⟩).writtenCounterFile =
      some (write_mmi (0 + ["S1"].length + 1)) ∧
    identsOf (main_run (.yamlMap [("mi_number", 0)]) ⟨envOneProc, limsAllOk⟩).events =
      (List.range ["S1"].length).map (fun i => formatMI (0 + 1 + i)) ∧
    (identsOf (main_run (.yamlMap [("mi_number", 0)]) ⟨envOneProc, limsAllOk⟩).events).Nodup ∧
    (main_run (.yamlMap [("mi_number", 0)]) ⟨envOneProc, limsAllOk⟩).lockReleased = true :=
  claim_C1_amended 0 [("mi_number", 0)] ⟨envOneProc, limsAllOk⟩ ["S1"]
    (by decide) (by decide) (by intro s _; exact ⟨_, rfl⟩)

end ClarityAddMI

